import Mathlib

/-!
Verification of the matrix-free Conjugate Gradient solvers of
`src/python/demo_poisson_matrix_free.ipynb`.

Modelling choices for the shallow embedding:

* PETSc vectors are modelled as lists of rationals (`Vec := List ℚ`): exact
  rational arithmetic stands in for IEEE double arithmetic, so algebraic and
  structural properties of the iteration are settled exactly.
* The PETSc vector primitives used by the demo (`dot`, `axpy`, `aypx`,
  vector subtraction, `copy`) act pointwise; `ghostUpdate` reconciles
  distributed halo entries and is the identity in this serial model.
* Python float division raises `ZeroDivisionError` when the denominator is
  exactly zero; this is modelled by `Except.error CGError.zeroDivision`.
  The solvers contain no other failure path.
* The in-place mutation of the PETSc vectors (`x.axpy(alpha, p)` etc.) is
  translated into explicit state passing on `CGState`, whose fields are the
  local variables of one solve; an operation writing into a vector becomes an
  update of the corresponding field.
-/

/-- A PETSc vector: an ordered sequence of scalar coefficients. -/
abbrev Vec := List ℚ

/-- The global inner product `a.dot(b)`. -/
def dot (a b : Vec) : ℚ := (List.zipWith (· * ·) a b).sum

/-- Pointwise vector subtraction, as in `r = b - y`. -/
def vecSub (a b : Vec) : Vec := List.zipWith (· - ·) a b

/-- PETSc `y.axpy(a, x)`: `y + a * x`, pointwise. -/
def axpy (y : Vec) (a : ℚ) (x : Vec) : Vec :=
  List.zipWith (fun yi xi => yi + a * xi) y x

/-- PETSc `y.aypx(a, x)`: `a * y + x`, pointwise. -/
def aypx (y : Vec) (a : ℚ) (x : Vec) : Vec :=
  List.zipWith (fun yi xi => a * yi + xi) y x

/-- The only failure the solvers can raise: Python's `ZeroDivisionError`,
produced by a float division whose denominator is exactly zero. -/
inductive CGError where
  | zeroDivision
deriving DecidableEq, Repr

/-- The local variables of one solve of the hand-written `cg` function (and of
the `CG.solve` plugin, whose body binds the same variables): the right-hand
side `b` (read, never written), the solution iterate `x`, the residual `r`,
the search direction `p`, the current and initial squared residual norms, and
the iteration counter `k`. -/
structure CGState where
  b : Vec
  x : Vec
  r : Vec
  p : Vec
  r_norm2 : ℚ
  r0_norm2 : ℚ
  k : ℕ
deriving DecidableEq, Repr

/-- One pass of the `while k < max_iter` loop body of `cg`:
`k += 1`; `y = action_A(p)`; `alpha = r_norm2 / p.dot(y)`;
`x.axpy(alpha, p)`; `r.axpy(-alpha, y)`; `r_norm2_new = r.dot(r)`;
`beta = r_norm2_new / r_norm2`; `r_norm2 = r_norm2_new`;
`if abs(r_norm2 / r0_norm2) < eps: break`; `p.aypx(beta, r)`.
Returns `(true, s')` when the convergence test fired (the `break`) and
`(false, s')` when the loop continues after the `p` update.  Each division
whose denominator is zero raises `ZeroDivisionError`. -/
def cgStep (action_A : Vec → Vec) (eps : ℚ) (s : CGState) :
    Except CGError (Bool × CGState) :=
  let y := action_A s.p
  let d := dot s.p y
  if d = 0 then .error .zeroDivision else
  let alpha := s.r_norm2 / d
  let x := axpy s.x alpha s.p
  let r := axpy s.r (-alpha) y
  let r_norm2_new := dot r r
  if s.r_norm2 = 0 then .error .zeroDivision else
  let beta := r_norm2_new / s.r_norm2
  if s.r0_norm2 = 0 then .error .zeroDivision else
  if |r_norm2_new / s.r0_norm2| < eps then
    .ok (true, ⟨s.b, x, r, s.p, r_norm2_new, s.r0_norm2, s.k + 1⟩)
  else
    .ok (false, ⟨s.b, x, r, aypx s.p beta r, r_norm2_new, s.r0_norm2, s.k + 1⟩)

/-- The `while k < max_iter` loop of `cg`; `fuel` is the number of remaining
iterations `max_iter - k`, so exhausting it is exactly the loop condition
`k < max_iter` turning false. -/
def cgLoop (action_A : Vec → Vec) (eps : ℚ) : ℕ → CGState → Except CGError CGState
  | 0, s => .ok s
  | fuel + 1, s =>
    match cgStep action_A eps s with
    | .error e => .error e
    | .ok (true, s') => .ok s'
    | .ok (false, s') => cgLoop action_A eps fuel s'

/-- The hand-written matrix-free solver `cg(action_A, b, x, max_iter, rtol)`:
`y = action_A(x)`; `r = b - y`; `p = r` (copy and ghost update);
`r_norm2 = r.dot(r)`; `r0_norm2 = r_norm2`; `eps = rtol**2`; `k = 0`;
then the iteration loop.  The Python function mutates `x` in place and
returns `k`; here the whole final variable state is returned, `.x` being the
computed solution and `.k` the reported iteration count. -/
def cg (action_A : Vec → Vec) (b x : Vec) (max_iter : ℕ) (rtol : ℚ) :
    Except CGError CGState :=
  let y := action_A x
  let r := vecSub b y
  let p := r
  let r_norm2 := dot r r
  cgLoop action_A (rtol ^ 2) max_iter ⟨b, x, r, p, r_norm2, r_norm2, 0⟩

/-- Outcome of the KSP convergence test `converged(ksp, iter, r_norm)`:
`ITERATING` (falsy), `CONVERGED_RTOL`, or `DIVERGED_MAX_IT`. -/
inductive KSPReason where
  | iterating
  | convergedRtol
  | divergedMaxIt
deriving DecidableEq, Repr

/-- The custom convergence test `converged(ksp, iter, r_norm)`:
`if iter > max_iter: return DIVERGED_MAX_IT`;
`r0_norm = ksp.getConvergenceHistory()[0]`;
`if r_norm / r0_norm < rtol: return CONVERGED_RTOL`; else `ITERATING`.
The source compares the norms `r_norm / r0_norm < rtol`; rational arithmetic
has no square root, so the comparison is carried on the squared norms as
`r_norm2 < rtol ^ 2 * r0_norm2`, its exact equivalent for nonnegative norms
and positive `r0_norm2` (lemma `sq_test_iff_norm_test` below justifies the
transcription).  When `r0_norm` is zero the Python division raises
`ZeroDivisionError`. -/
def converged (rtol : ℚ) (max_iter : ℕ) (r0_norm2 : ℚ) (iter : ℕ) (r_norm2 : ℚ) :
    Except CGError KSPReason :=
  if iter > max_iter then .ok .divergedMaxIt
  else if r0_norm2 = 0 then .error .zeroDivision
  else if r_norm2 < rtol ^ 2 * r0_norm2 then .ok .convergedRtol
  else .ok .iterating

/-- One pass of the `while` loop body of the custom KSP plugin `CG.solve`:
identical arithmetic to `cgStep` (`A.mult(p, y)`; `alpha = r_norm2 / p.dot(y)`;
`x.axpy(alpha, p)`; `r.axpy(-alpha, y)`; `r_norm2_new = r.dot(r)`;
`beta = r_norm2_new / r_norm2`), except that `p.aypx(beta, r)` runs
unconditionally at the end of the body and the convergence test lives in the
driver (`CustomKSP.converged`), not in the body.  The iteration number is
managed by the driver, so `k` is left unchanged here. -/
def CG.solveStep (action_A : Vec → Vec) (s : CGState) : Except CGError CGState :=
  let y := action_A s.p
  let d := dot s.p y
  if d = 0 then .error .zeroDivision else
  let alpha := s.r_norm2 / d
  let x := axpy s.x alpha s.p
  let r := axpy s.r (-alpha) y
  let r_norm2_new := dot r r
  if s.r_norm2 = 0 then .error .zeroDivision else
  let beta := r_norm2_new / s.r_norm2
  .ok ⟨s.b, x, r, aypx s.p beta r, r_norm2_new, s.r0_norm2, s.k⟩

/-- The `while not self.converged(ksp, r)` loop of `CG.solve`, combined with
`CustomKSP.converged`: the test receives the current iteration number `k` and
the recomputed residual norm `r.norm()` (here carried squared, `r.dot(r)`);
when it returns `ITERATING` the iteration number becomes `k + 1` and the body
runs, otherwise the loop exits with the reason.  The first convergence-history
entry, logged at the first call, is the initial residual norm, i.e.
`r0_norm2`.  The loop always exits within `max_iter + 2` tests (the test at
`k > max_iter` diverges), so that fuel bound is exact. -/
def CG.solveLoop (action_A : Vec → Vec) (rtol : ℚ) (max_iter : ℕ) :
    ℕ → CGState → Except CGError (KSPReason × CGState)
  | 0, s => .ok (.iterating, s)
  | fuel + 1, s =>
    match converged rtol max_iter s.r0_norm2 s.k (dot s.r s.r) with
    | .error e => .error e
    | .ok .iterating =>
      match CG.solveStep action_A { s with k := s.k + 1 } with
      | .error e => .error e
      | .ok s' => CG.solveLoop action_A rtol max_iter fuel s'
    | .ok reason => .ok (reason, s)

/-- The custom KSP plugin solver `CG.solve(ksp, b, x)`:
`A.mult(x, y)`; `r = b - y`; `r.copy(p)` (and ghost update);
`r_norm2 = r.dot(r)`; `self.r0_norm2 = r_norm2`; then the driven loop,
starting from iteration number `0`. -/
def CG.solve (action_A : Vec → Vec) (b x : Vec) (max_iter : ℕ) (rtol : ℚ) :
    Except CGError (KSPReason × CGState) :=
  let y := action_A x
  let r := vecSub b y
  let p := r
  let r_norm2 := dot r r
  CG.solveLoop action_A rtol max_iter (max_iter + 2) ⟨b, x, r, p, r_norm2, r_norm2, 0⟩

/-- Modelled from the spec: the library-driven variant, i.e. the external
linear-algebra library's built-in CG driver (`KSP.Type.CG`) configured with
the repository's custom convergence test `converged`.  The driver's loop is
library code, not part of this repository; per spec §4.1 and §9 the three
variants run the identical numerical algorithm (steps 4a–4g, the arithmetic
of `CG.solveStep`), with the driver evaluating the user convergence test on
the initial residual and after every iteration. -/
def libCGLoop (action_A : Vec → Vec) (rtol : ℚ) (max_iter : ℕ) :
    ℕ → CGState → Except CGError (KSPReason × CGState)
  | 0, s => .ok (.iterating, s)
  | fuel + 1, s =>
    match converged rtol max_iter s.r0_norm2 s.k (dot s.r s.r) with
    | .error e => .error e
    | .ok .iterating =>
      match CG.solveStep action_A { s with k := s.k + 1 } with
      | .error e => .error e
      | .ok s' => libCGLoop action_A rtol max_iter fuel s'
    | .ok reason => .ok (reason, s)

/-- Modelled from the spec: entry point of the library-driven variant
(`solver.solve(b, uh_cg2.vector)` with the virtual matrix-free operator);
same initial residual computation as the other two variants. -/
def libCG (action_A : Vec → Vec) (b x : Vec) (max_iter : ℕ) (rtol : ℚ) :
    Except CGError (KSPReason × CGState) :=
  let y := action_A x
  let r := vecSub b y
  let p := r
  let r_norm2 := dot r r
  libCGLoop action_A rtol max_iter (max_iter + 2) ⟨b, x, r, p, r_norm2, r_norm2, 0⟩

/-- Reference iteration transcribed from the wording of claim C1 (spec §4.1
steps 4a–4g): `y = apply(p)`; `alpha = r_norm2 / dot(p, y)`;
`x <- x + alpha*p`; `r <- r - alpha*y`; `r_norm2_new = dot(r, r)`;
`beta = r_norm2_new / r_norm2`; `r_norm2 <- r_norm2_new`; convergence test
`r_norm2 / r0_norm2 < rtol^2`; when not converged, `p <- beta*p + r`.
Total rational arithmetic (a division by zero yields `0`); this definition is
the claim-side reference against which `cgStep` is checked. -/
def specStep (action_A : Vec → Vec) (eps : ℚ) (s : CGState) : Bool × CGState :=
  let y := action_A s.p
  let alpha := s.r_norm2 / dot s.p y
  let x := axpy s.x alpha s.p
  let r := axpy s.r (-alpha) y
  let r_norm2_new := dot r r
  let beta := r_norm2_new / s.r_norm2
  if r_norm2_new / s.r0_norm2 < eps then
    (true, ⟨s.b, x, r, s.p, r_norm2_new, s.r0_norm2, s.k + 1⟩)
  else
    (false, ⟨s.b, x, r, aypx s.p beta r, r_norm2_new, s.r0_norm2, s.k + 1⟩)

/-- Reference loop for the claim-side iteration `specStep`. -/
def specLoop (action_A : Vec → Vec) (eps : ℚ) : ℕ → CGState → CGState
  | 0, s => s
  | fuel + 1, s =>
    match specStep action_A eps s with
    | (true, s') => s'
    | (false, s') => specLoop action_A eps fuel s'

/-- Reference solver transcribed from the wording of claim C1 (spec §4.1
steps 1–3): `r = b - apply(x)`; `p = r`; `r_norm2 = dot(r, r)`;
`r0_norm2 = r_norm2`; then the iteration. -/
def specCG (action_A : Vec → Vec) (b x : Vec) (max_iter : ℕ) (rtol : ℚ) : CGState :=
  let r := vecSub b (action_A x)
  specLoop action_A (rtol ^ 2) max_iter ⟨b, x, r, r, dot r r, dot r r, 0⟩

/-- The identity operator, used as a concrete symmetric positive-definite
action in witnesses. -/
def idApply : Vec → Vec := fun v => v

/-- The diagonal operator `diag(1, 2)` on length-two vectors, a concrete
symmetric positive-definite action whose CG runs need two iterations. -/
def applyDiag12 : Vec → Vec := fun v => List.zipWith (· * ·) [(1 : ℚ), 2] v

/-- The demo's relative tolerance `rtol = 1e-6`. -/
def rtolDemo : ℚ := 1 / 1000000

/-- Python/IEEE-754 double values for the special-value model: `fin q` is a
finite value (idealized as an exact rational; rounding and signed zeros are
not modelled), `inf` and `ninf` the signed infinities, `nan` the quiet NaN.
The exact-rational `Vec` model cannot express the non-finite denominators
that claim C3 is about, so the solver is additionally translated over this
scalar type, whose operations follow Python float semantics. -/
inductive PyFloat where
  | fin (q : ℚ)
  | inf
  | ninf
  | nan
deriving DecidableEq, Repr

/-- Python float negation. -/
def PyFloat.neg : PyFloat → PyFloat
  | .fin q => .fin (-q)
  | .inf => .ninf
  | .ninf => .inf
  | .nan => .nan

/-- Python float addition: NaN propagates, `inf + (-inf)` is NaN, an
infinite operand otherwise dominates. -/
def PyFloat.add : PyFloat → PyFloat → PyFloat
  | .nan, _ => .nan
  | _, .nan => .nan
  | .inf, .ninf => .nan
  | .ninf, .inf => .nan
  | .inf, _ => .inf
  | _, .inf => .inf
  | .ninf, _ => .ninf
  | _, .ninf => .ninf
  | .fin a, .fin b => .fin (a + b)

/-- Python float subtraction. -/
def PyFloat.sub (a b : PyFloat) : PyFloat := a.add b.neg

/-- Python float multiplication: NaN propagates, `0 * (±inf)` is NaN, signs
of infinities follow the sign rule. -/
def PyFloat.mul : PyFloat → PyFloat → PyFloat
  | .nan, _ => .nan
  | _, .nan => .nan
  | .inf, .inf => .inf
  | .ninf, .ninf => .inf
  | .inf, .ninf => .ninf
  | .ninf, .inf => .ninf
  | .inf, .fin b => if b = 0 then .nan else if 0 < b then .inf else .ninf
  | .fin a, .inf => if a = 0 then .nan else if 0 < a then .inf else .ninf
  | .ninf, .fin b => if b = 0 then .nan else if 0 < b then .ninf else .inf
  | .fin a, .ninf => if a = 0 then .nan else if 0 < a then .ninf else .inf
  | .fin a, .fin b => .fin (a * b)

/-- Python float division: a denominator of exactly zero raises
`ZeroDivisionError` whatever the numerator (as in CPython); otherwise NaN
propagates, `±inf / ±inf` is NaN, finite over infinite is zero, and
infinite over finite keeps the sign rule. -/
def PyFloat.div : PyFloat → PyFloat → Except CGError PyFloat
  | a, .fin q =>
    if q = 0 then .error .zeroDivision
    else
      match a with
      | .fin p => .ok (.fin (p / q))
      | .inf => .ok (if 0 < q then .inf else .ninf)
      | .ninf => .ok (if 0 < q then .ninf else .inf)
      | .nan => .ok .nan
  | .nan, _ => .ok .nan
  | _, .nan => .ok .nan
  | .fin _, .inf => .ok (.fin 0)
  | .fin _, .ninf => .ok (.fin 0)
  | _, _ => .ok .nan

/-- Python float absolute value. -/
def PyFloat.abs : PyFloat → PyFloat
  | .fin q => .fin |q|
  | .inf => .inf
  | .ninf => .inf
  | .nan => .nan

/-- Python float strict comparison: every comparison with NaN is false. -/
def PyFloat.lt : PyFloat → PyFloat → Bool
  | .nan, _ => false
  | _, .nan => false
  | .ninf, .ninf => false
  | .ninf, _ => true
  | _, .ninf => false
  | .inf, _ => false
  | .fin _, .inf => true
  | .fin a, .fin b => decide (a < b)

/-- A PETSc vector of Python floats, for the special-value model. -/
abbrev FVec := List PyFloat

/-- `a.dot(b)` over Python floats. -/
def dotF (a b : FVec) : PyFloat :=
  (List.zipWith PyFloat.mul a b).foldr PyFloat.add (.fin 0)

/-- `b - y` over Python floats. -/
def vecSubF (a b : FVec) : FVec := List.zipWith PyFloat.sub a b

/-- `y.axpy(a, x)` over Python floats. -/
def axpyF (y : FVec) (a : PyFloat) (x : FVec) : FVec :=
  List.zipWith (fun yi xi => yi.add (a.mul xi)) y x

/-- `y.aypx(a, x)` over Python floats. -/
def aypxF (y : FVec) (a : PyFloat) (x : FVec) : FVec :=
  List.zipWith (fun yi xi => (a.mul yi).add xi) y x

/-- The variable state of one `cg` solve over Python floats (the same
fields as `CGState`). -/
structure CGStateF where
  b : FVec
  x : FVec
  r : FVec
  p : FVec
  r_norm2 : PyFloat
  r0_norm2 : PyFloat
  k : ℕ
deriving DecidableEq, Repr

/-- One pass of the `cg` loop body over Python floats: the same update
sequence as `cgStep`, with each division routed through `PyFloat.div`
(which raises exactly when the denominator is zero; a non-finite
denominator goes through silently, as in Python). -/
def cgStepF (action_A : FVec → FVec) (eps : PyFloat) (s : CGStateF) :
    Except CGError (Bool × CGStateF) :=
  let y := action_A s.p
  let d := dotF s.p y
  match s.r_norm2.div d with
  | .error e => .error e
  | .ok alpha =>
    let x := axpyF s.x alpha s.p
    let r := axpyF s.r alpha.neg y
    let r_norm2_new := dotF r r
    match r_norm2_new.div s.r_norm2 with
    | .error e => .error e
    | .ok beta =>
      match r_norm2_new.div s.r0_norm2 with
      | .error e => .error e
      | .ok ratio =>
        if ratio.abs.lt eps then
          .ok (true, ⟨s.b, x, r, s.p, r_norm2_new, s.r0_norm2, s.k + 1⟩)
        else
          .ok (false, ⟨s.b, x, r, aypxF s.p beta r, r_norm2_new, s.r0_norm2, s.k + 1⟩)

/-- The `while k < max_iter` loop of `cg` over Python floats. -/
def cgLoopF (action_A : FVec → FVec) (eps : PyFloat) :
    ℕ → CGStateF → Except CGError CGStateF
  | 0, s => .ok s
  | fuel + 1, s =>
    match cgStepF action_A eps s with
    | .error e => .error e
    | .ok (true, s') => .ok s'
    | .ok (false, s') => cgLoopF action_A eps fuel s'

/-- The `cg` solver over Python floats; `eps = rtol**2` is `rtol * rtol`. -/
def cgF (action_A : FVec → FVec) (b x : FVec) (max_iter : ℕ) (rtol : PyFloat) :
    Except CGError CGStateF :=
  let y := action_A x
  let r := vecSubF b y
  let p := r
  let r_norm2 := dotF r r
  cgLoopF action_A (rtol.mul rtol) max_iter ⟨b, x, r, p, r_norm2, r_norm2, 0⟩

/-- The operator whose action is identically `+inf`: it drives the solver's
first `dot(p, y)` non-finite without any guard being hit. -/
def infApply : FVec → FVec := fun v => v.map (fun _ => PyFloat.inf)

/-- The zero operator over Python floats, the spec's degenerate breakdown
action. -/
def zeroApplyF : FVec → FVec := fun v => v.map (fun _ => PyFloat.fin 0)

/-! Helper lemmas about the vector primitives. -/

theorem dot_self_nonneg (v : Vec) : 0 ≤ dot v v := by
  induction v with
  | nil => simp [dot]
  | cons a t ih =>
    have h : dot (a :: t) (a :: t) = a * a + dot t t := by
      simp [dot]
    rw [h]
    exact add_nonneg (mul_self_nonneg a) ih

theorem dot_eq_zero_of_left_zero (a y : Vec) (h : ∀ q ∈ a, q = 0) :
    dot a y = 0 := by
  induction a generalizing y with
  | nil => simp [dot]
  | cons q t ih =>
    cases y with
    | nil => simp [dot]
    | cons z w =>
      have hq : q = 0 := h q (by simp)
      have ht : ∀ u ∈ t, u = 0 := fun u hu => h u (by simp [hu])
      simpa [dot, hq] using ih w ht

theorem abs_div_lt_iff_lt_mul (a b c : ℚ) (ha : 0 ≤ a) (hb : 0 < b) :
    |a / b| < c ↔ a < c * b := by
  rw [abs_of_nonneg (div_nonneg ha hb.le), div_lt_iff₀ hb]

/-- Justification for carrying the `converged` comparison on squared norms:
for nonnegative `a = r_norm2`, positive `b = r0_norm2` and nonnegative
tolerance `t`, the transcribed test `a < t ^ 2 * b` is equivalent to the
source's test on the norms, `sqrt a / sqrt b < t`. -/
theorem sq_test_iff_norm_test (a b t : ℚ) (ha : 0 ≤ a) (hb : 0 < b) (ht : 0 ≤ t) :
    (a < t ^ 2 * b) ↔ Real.sqrt (a : ℝ) / Real.sqrt (b : ℝ) < (t : ℝ) := by
  rcases eq_or_lt_of_le ht with h0 | h0
  · constructor
    · intro h
      exfalso
      have : t ^ 2 * b = 0 := by rw [← h0]; ring
      rw [this] at h
      exact absurd h (not_lt.mpr ha)
    · intro h
      exfalso
      have hnn : (0 : ℝ) ≤ Real.sqrt (a : ℝ) / Real.sqrt (b : ℝ) :=
        div_nonneg (Real.sqrt_nonneg _) (Real.sqrt_nonneg _)
      rw [← h0] at h
      push_cast at h
      exact absurd h (not_lt.mpr hnn)
  · have hbR : (0 : ℝ) < (b : ℝ) := by exact_mod_cast hb
    have htR : (0 : ℝ) < (t : ℝ) := by exact_mod_cast h0
    have hsb : 0 < Real.sqrt (b : ℝ) := Real.sqrt_pos.mpr hbR
    rw [div_lt_iff₀ hsb, Real.sqrt_lt' (mul_pos htR hsb), mul_pow,
      Real.sq_sqrt hbR.le]
    constructor
    · intro h; exact_mod_cast h
    · intro h; exact_mod_cast h

/-! Inversion facts for one `cg` iteration and for the loop. -/

theorem cgStep_ok_facts (action_A : Vec → Vec) (eps : ℚ) (s : CGState)
    (brk : Bool) (s' : CGState) (h : cgStep action_A eps s = .ok (brk, s')) :
    s'.b = s.b ∧ s'.r0_norm2 = s.r0_norm2 ∧ s'.k = s.k + 1 ∧
    s'.r_norm2 = dot s'.r s'.r ∧ s.r0_norm2 ≠ 0 ∧ s.r_norm2 ≠ 0 ∧
    (brk = true ↔ |s'.r_norm2 / s'.r0_norm2| < eps) := by
  simp only [cgStep] at h
  split_ifs at h with h1 h2 h3 h4
  · simp only [Except.ok.injEq, Prod.mk.injEq] at h
    obtain ⟨hb, hs⟩ := h
    subst hs
    subst hb
    exact ⟨rfl, rfl, rfl, rfl, h3, h2, by simpa using h4⟩
  · simp only [Except.ok.injEq, Prod.mk.injEq] at h
    obtain ⟨hb, hs⟩ := h
    subst hs
    subst hb
    exact ⟨rfl, rfl, rfl, rfl, h3, h2, by simpa using h4⟩

theorem cgLoop_ok_facts (action_A : Vec → Vec) (eps : ℚ) :
    ∀ (fuel : ℕ) (st s' : CGState), cgLoop action_A eps fuel st = .ok s' →
      s'.b = st.b ∧ s'.r0_norm2 = st.r0_norm2 ∧ st.k ≤ s'.k ∧
      s'.k ≤ st.k + fuel ∧
      (st.r_norm2 = dot st.r st.r → s'.r_norm2 = dot s'.r s'.r) ∧
      (s'.k = st.k + fuel ∨ |s'.r_norm2 / s'.r0_norm2| < eps) ∧
      (1 ≤ fuel → st.k + 1 ≤ s'.k) := by
  intro fuel
  induction fuel with
  | zero =>
    intro st s' h
    simp only [cgLoop, Except.ok.injEq] at h
    subst h
    exact ⟨rfl, rfl, le_rfl, by omega, fun hh => hh, Or.inl (by omega), by omega⟩
  | succ f ih =>
    intro st s' h
    simp only [cgLoop] at h
    rcases hstep : cgStep action_A eps st with e | ⟨brk, s₁⟩
    · rw [hstep] at h; simp at h
    · rw [hstep] at h
      obtain ⟨hb, hr0, hk, hinv, -, -, hiff⟩ :=
        cgStep_ok_facts action_A eps st brk s₁ hstep
      cases brk with
      | true =>
        simp only [Except.ok.injEq] at h
        subst h
        refine ⟨hb, hr0, by omega, by omega, fun _ => hinv, ?_, by omega⟩
        exact Or.inr (hiff.mp rfl)
      | false =>
        obtain ⟨hb', hr0', hk1', hk2', hinv', hdisj', -⟩ := ih s₁ s' h
        refine ⟨hb'.trans hb, hr0'.trans hr0, by omega, by omega,
          fun _ => hinv' hinv, ?_, by omega⟩
        rcases hdisj' with he | ht
        · exact Or.inl (by omega)
        · exact Or.inr ht

theorem cg_ok_facts (action_A : Vec → Vec) (b x : Vec) (max_iter : ℕ)
    (rtol : ℚ) (s : CGState) (h : cg action_A b x max_iter rtol = .ok s) :
    s.b = b ∧
    s.r0_norm2 = dot (vecSub b (action_A x)) (vecSub b (action_A x)) ∧
    s.k ≤ max_iter ∧ s.r_norm2 = dot s.r s.r ∧
    (s.k = max_iter ∨ |s.r_norm2 / s.r0_norm2| < rtol ^ 2) ∧
    (1 ≤ max_iter → 1 ≤ s.k) := by
  simp only [cg] at h
  obtain ⟨hb, hr0, hk1, hk2, hinv, hdisj, hfirst⟩ :=
    cgLoop_ok_facts action_A (rtol ^ 2) max_iter _ s h
  refine ⟨hb, hr0, by simpa using hk2, hinv rfl, by simpa using hdisj,
    fun hm => by simpa using hfirst hm⟩

/-- C9: for every `max_iter ≥ 1`, the `cg` function executes at least one
full iteration before the convergence test is first evaluated, and whenever
it returns it reports an iteration count `k` with `1 ≤ k ≤ max_iter`; in
particular it never returns `0`, even when the supplied initial guess
already solves the system, because `r0_norm2` is recomputed from that guess
at the start of the call. -/
theorem c9_iteration_count_bounds (action_A : Vec → Vec) (b x : Vec)
    (max_iter : ℕ) (rtol : ℚ) (s : CGState) (hmi : 1 ≤ max_iter)
    (h : cg action_A b x max_iter rtol = .ok s) :
    1 ≤ s.k ∧ s.k ≤ max_iter := by
  obtain ⟨-, -, hk, -, -, hfirst⟩ := cg_ok_facts action_A b x max_iter rtol s h
  exact ⟨hfirst hmi, hk⟩

theorem c9_iteration_count_bounds_witness :
    cg idApply [1] [0] 3 rtolDemo = .ok ⟨[1], [1], [0], [1], 0, 1, 1⟩ ∧
    1 ≤ (⟨[1], [1], [0], [1], 0, 1, 1⟩ : CGState).k ∧
    (⟨[1], [1], [0], [1], 0, 1, 1⟩ : CGState).k ≤ 3 := by
  have hrun : cg idApply [1] [0] 3 rtolDemo = .ok ⟨[1], [1], [0], [1], 0, 1, 1⟩ := by
    norm_num [cg, cgLoop, cgStep, dot, vecSub, axpy, aypx, idApply, rtolDemo]
  exact ⟨hrun, c9_iteration_count_bounds idApply [1] [0] 3 rtolDemo
    ⟨[1], [1], [0], [1], 0, 1, 1⟩ (by omega) hrun⟩

/-- C10: a call to `cg` never mutates its right-hand-side argument `b`:
in the state-passing translation, the `b` component of the final variable
state equals the `b` passed in; only `x` and the work vectors `r`, `p`, `y`
are written. -/
theorem c10_rhs_vector_unchanged (action_A : Vec → Vec) (b x : Vec)
    (max_iter : ℕ) (rtol : ℚ) (s : CGState)
    (h : cg action_A b x max_iter rtol = .ok s) : s.b = b :=
  (cg_ok_facts action_A b x max_iter rtol s h).1

theorem c10_rhs_vector_unchanged_witness :
    cg idApply [1] [0] 3 rtolDemo = .ok ⟨[1], [1], [0], [1], 0, 1, 1⟩ ∧
    (⟨[1], [1], [0], [1], 0, 1, 1⟩ : CGState).b = [1] := by
  have hrun : cg idApply [1] [0] 3 rtolDemo = .ok ⟨[1], [1], [0], [1], 0, 1, 1⟩ := by
    norm_num [cg, cgLoop, cgStep, dot, vecSub, axpy, aypx, idApply, rtolDemo]
  exact ⟨hrun, c10_rhs_vector_unchanged idApply [1] [0] 3 rtolDemo
    ⟨[1], [1], [0], [1], 0, 1, 1⟩ hrun⟩

/-- C5 (amended): if the convergence test is not satisfied at the final
state, the solve has terminated without crashing by exhausting the cap and
returns the current `x` with iteration count `k = max_iter`; the returned
count alone does not distinguish this from convergence at exactly
`max_iter` iterations (see the counterexample). -/
theorem c5_cap_termination (action_A : Vec → Vec) (b x : Vec)
    (max_iter : ℕ) (rtol : ℚ) (s : CGState)
    (h : cg action_A b x max_iter rtol = .ok s)
    (hnc : ¬ |s.r_norm2 / s.r0_norm2| < rtol ^ 2) : s.k = max_iter := by
  obtain ⟨-, -, -, -, hdisj, -⟩ := cg_ok_facts action_A b x max_iter rtol s h
  rcases hdisj with he | ht
  · exact he
  · exact absurd ht hnc

theorem c5_cap_termination_witness :
    cg applyDiag12 [1, 1] [0, 0] 1 rtolDemo =
      .ok ⟨[1, 1], [2/3, 2/3], [1/3, -1/3], [4/9, -2/9], 2/9, 2, 1⟩ ∧
    (⟨[1, 1], [2/3, 2/3], [1/3, -1/3], [4/9, -2/9], 2/9, 2, 1⟩ : CGState).k = 1 := by
  have hrun : cg applyDiag12 [1, 1] [0, 0] 1 rtolDemo =
      .ok ⟨[1, 1], [2/3, 2/3], [1/3, -1/3], [4/9, -2/9], 2/9, 2, 1⟩ := by
    norm_num [cg, cgLoop, cgStep, dot, vecSub, axpy, aypx, applyDiag12, rtolDemo,
      abs_of_nonneg]
  exact ⟨hrun, c5_cap_termination applyDiag12 [1, 1] [0, 0] 1 rtolDemo
    ⟨[1, 1], [2/3, 2/3], [1/3, -1/3], [4/9, -2/9], 2/9, 2, 1⟩ hrun
    (by norm_num [rtolDemo, abs_of_nonneg])⟩

/-- C5 (counterexample): the claim that non-convergence is reported in a way
distinguishable from a converged result is false for `cg`: it returns only
the iteration counter.  With `max_iter = 1` the run on the identity operator
converges (final `|r_norm2 / r0_norm2| < rtol^2` holds) and the run on
`diag(1, 2)` does not, yet both return the same count `k = 1`. -/
theorem c5_counterexample :
    (cg idApply [1] [0] 1 rtolDemo).map
        (fun s => (s.k, decide (|s.r_norm2 / s.r0_norm2| < rtolDemo ^ 2))) =
      .ok (1, true) ∧
    (cg applyDiag12 [1, 1] [0, 0] 1 rtolDemo).map
        (fun s => (s.k, decide (|s.r_norm2 / s.r0_norm2| < rtolDemo ^ 2))) =
      .ok (1, false) := by
  constructor
  · norm_num [cg, cgLoop, cgStep, dot, vecSub, axpy, aypx, idApply, rtolDemo,
      abs_of_nonneg, Except.map, decide_eq_true_eq]
  · norm_num [cg, cgLoop, cgStep, dot, vecSub, axpy, aypx, applyDiag12, rtolDemo,
      abs_of_nonneg, Except.map, decide_eq_false_iff_not]

/-- C7 (amended): at termination of a successful `cg` call, either the
iteration cap was reached, or the convergence test fired and the final
squared residual norm satisfies `r_norm2 ≤ rtol^2 * r0_norm2` (pointwise
monotonic decrease across iterations is not claimed). -/
theorem c7_terminal_residual_bound (action_A : Vec → Vec) (b x : Vec)
    (max_iter : ℕ) (rtol : ℚ) (s : CGState)
    (h : cg action_A b x max_iter rtol = .ok s) (hr0 : 0 < s.r0_norm2) :
    s.k = max_iter ∨ s.r_norm2 ≤ rtol ^ 2 * s.r0_norm2 := by
  obtain ⟨-, -, -, hinv, hdisj, -⟩ := cg_ok_facts action_A b x max_iter rtol s h
  rcases hdisj with he | ht
  · exact Or.inl he
  · refine Or.inr (le_of_lt ?_)
    have hnn : 0 ≤ s.r_norm2 := by rw [hinv]; exact dot_self_nonneg s.r
    exact (abs_div_lt_iff_lt_mul _ _ _ hnn hr0).mp ht

theorem c7_terminal_residual_bound_witness :
    cg idApply [1] [0] 3 rtolDemo = .ok ⟨[1], [1], [0], [1], 0, 1, 1⟩ ∧
    ((⟨[1], [1], [0], [1], 0, 1, 1⟩ : CGState).k = 3 ∨
      (⟨[1], [1], [0], [1], 0, 1, 1⟩ : CGState).r_norm2 ≤
        rtolDemo ^ 2 * (⟨[1], [1], [0], [1], 0, 1, 1⟩ : CGState).r0_norm2) := by
  have hrun : cg idApply [1] [0] 3 rtolDemo = .ok ⟨[1], [1], [0], [1], 0, 1, 1⟩ := by
    norm_num [cg, cgLoop, cgStep, dot, vecSub, axpy, aypx, idApply, rtolDemo]
  exact ⟨hrun, c7_terminal_residual_bound idApply [1] [0] 3 rtolDemo
    ⟨[1], [1], [0], [1], 0, 1, 1⟩ hrun (by norm_num)⟩

/-- C7 (counterexample): the claim as stated, that at termination the final
squared residual norm satisfies `r_norm2 <= rtol^2 * r0_norm2`, fails when
the cap is exhausted: with `max_iter = 1` on `diag(1, 2)` the solver
terminates with `r_norm2 = 2/9` and `r0_norm2 = 2`, and
`2/9 > rtol^2 * 2`. -/
theorem c7_counterexample :
    cg applyDiag12 [1, 1] [0, 0] 1 rtolDemo =
      .ok ⟨[1, 1], [2/3, 2/3], [1/3, -1/3], [4/9, -2/9], 2/9, 2, 1⟩ ∧
    ¬ ((2 / 9 : ℚ) ≤ rtolDemo ^ 2 * 2) := by
  constructor
  · norm_num [cg, cgLoop, cgStep, dot, vecSub, axpy, aypx, applyDiag12, rtolDemo,
      abs_of_nonneg]
  · norm_num [rtolDemo]

theorem cg_breakdown_of_zero_curvature (action_A : Vec → Vec) (b x : Vec)
    (max_iter : ℕ) (rtol : ℚ) (hmi : 1 ≤ max_iter)
    (hz : dot (vecSub b (action_A x)) (action_A (vecSub b (action_A x))) = 0) :
    cg action_A b x max_iter rtol = .error .zeroDivision := by
  obtain ⟨m, rfl⟩ : ∃ m, max_iter = m + 1 := ⟨max_iter - 1, by omega⟩
  simp [cg, cgLoop, cgStep, hz]

/-- C3 (amended): stated over the Python-float model `cgF`, where both
halves of the original claim are expressible.  If `dot(p, y)` is exactly
zero during the computation of `alpha` in the first iteration (for example
when `action_A` is the zero operator), the solve fails with
`ZeroDivisionError` — Python raises on a zero denominator whatever the
numerator — and the error propagates uncaught to the caller rather than a
NaN being written into the result.  A non-finite `dot(p, y)`, by contrast,
is not guarded: the division goes through silently and NaN contaminates the
iterates (see the counterexample). -/
theorem c3_breakdown_surfaced (action_A : FVec → FVec) (b x : FVec)
    (max_iter : ℕ) (rtol : PyFloat) (hmi : 1 ≤ max_iter)
    (hz : dotF (vecSubF b (action_A x)) (action_A (vecSubF b (action_A x))) =
      .fin 0) :
    cgF action_A b x max_iter rtol = .error .zeroDivision := by
  obtain ⟨m, rfl⟩ : ∃ m, max_iter = m + 1 := ⟨max_iter - 1, by omega⟩
  simp [cgF, cgLoopF, cgStepF, hz, PyFloat.div]

theorem c3_breakdown_surfaced_witness :
    dotF (vecSubF [PyFloat.fin 1] (zeroApplyF [PyFloat.fin 0]))
        (zeroApplyF (vecSubF [PyFloat.fin 1] (zeroApplyF [PyFloat.fin 0]))) =
      PyFloat.fin 0 ∧
    cgF zeroApplyF [PyFloat.fin 1] [PyFloat.fin 0] 1 (PyFloat.fin (1 / 1000000)) =
      .error .zeroDivision := by
  have hz : dotF (vecSubF [PyFloat.fin 1] (zeroApplyF [PyFloat.fin 0]))
      (zeroApplyF (vecSubF [PyFloat.fin 1] (zeroApplyF [PyFloat.fin 0]))) =
      PyFloat.fin 0 := by
    norm_num [dotF, vecSubF, zeroApplyF, PyFloat.mul, PyFloat.add, PyFloat.sub,
      PyFloat.neg]
  exact ⟨hz, c3_breakdown_surfaced zeroApplyF [PyFloat.fin 1] [PyFloat.fin 0] 1
    (PyFloat.fin (1 / 1000000)) (by omega) hz⟩

/-- C3 (counterexample): the claim's non-finite half is false of the code.
With the operator whose action is identically `+inf` (and `b = [1.0]`,
`x0 = [0.0]`, `max_iter = 1`), the first iteration's denominator
`dot(p, y)` is `-inf` — non-finite — yet the solver raises nothing: `alpha`
becomes NaN silently, NaN propagates into `x`, `r`, `p` and `r_norm2`, the
convergence test (`NaN < eps`, always false) never fires, and `cg` returns
normally at the cap with a NaN-filled `x` instead of surfacing a
NumericalBreakdown. -/
theorem c3_counterexample :
    dotF (vecSubF [PyFloat.fin 1] (infApply [PyFloat.fin 0]))
        (infApply (vecSubF [PyFloat.fin 1] (infApply [PyFloat.fin 0]))) =
      PyFloat.ninf ∧
    cgF infApply [PyFloat.fin 1] [PyFloat.fin 0] 1 (PyFloat.fin (1 / 1000000)) =
      .ok ⟨[PyFloat.fin 1], [PyFloat.nan], [PyFloat.nan], [PyFloat.nan],
        PyFloat.nan, PyFloat.inf, 1⟩ := by
  constructor
  · norm_num [dotF, vecSubF, infApply, PyFloat.mul, PyFloat.add, PyFloat.sub,
      PyFloat.neg]
  · norm_num [cgF, cgLoopF, cgStepF, dotF, vecSubF, axpyF, aypxF, infApply,
      PyFloat.mul, PyFloat.add, PyFloat.sub, PyFloat.neg, PyFloat.div,
      PyFloat.abs, PyFloat.lt]

/-- C6 (amended): re-running the solver from a converged solution need not
terminate in 0–1 iterations.  When the initial guess solves the system
exactly (the initial residual `b - action_A(x)` is the zero vector, as it is
after a run of `cg` that converged with `r_norm2 = 0` in exact arithmetic),
the rerun's first iteration computes `dot(p, y) = 0` and the solve fails
with `ZeroDivisionError` instead of terminating; and with a nonzero small
residual the tolerance is re-based on the recomputed `r0_norm2`, so an early
exit is likewise not guaranteed (see the counterexample). -/
theorem c6_zero_residual_rerun_breakdown (action_A : Vec → Vec) (b x : Vec)
    (max_iter : ℕ) (rtol : ℚ) (hmi : 1 ≤ max_iter)
    (hz : ∀ q ∈ vecSub b (action_A x), q = 0) :
    cg action_A b x max_iter rtol = .error .zeroDivision :=
  cg_breakdown_of_zero_curvature action_A b x max_iter rtol hmi
    (dot_eq_zero_of_left_zero _ _ hz)

theorem c6_zero_residual_rerun_breakdown_witness :
    (∀ q ∈ vecSub [1] (idApply [1]), q = 0) ∧
    cg idApply [1] [1] 1 rtolDemo = .error .zeroDivision := by
  have hz : ∀ q ∈ vecSub [1] (idApply [1]), q = 0 := by
    norm_num [vecSub, idApply]
  exact ⟨hz, c6_zero_residual_rerun_breakdown idApply [1] [1] 1 rtolDemo (by omega) hz⟩

/-- C6 (counterexample): the claim that a rerun from the converged `x`
terminates in 0–1 iterations is false.  On `diag(1, 2)` with `b = (1, 1)`
the first call converges after `k = 2` iterations with `x = (1, 1/2)` (the
exact solution); re-running `cg` with that `x` as initial guess and all
other inputs unchanged raises `ZeroDivisionError` during its first
iteration — it does not terminate with an iteration count at all. -/
theorem c6_counterexample :
    (cg applyDiag12 [1, 1] [0, 0] 10 rtolDemo).map (fun s => (s.x, s.k)) =
      .ok ([1, 1/2], 2) ∧
    cg applyDiag12 [1, 1] [1, 1/2] 10 rtolDemo = .error .zeroDivision := by
  constructor
  · norm_num [cg, cgLoop, cgStep, dot, vecSub, axpy, aypx, applyDiag12, rtolDemo,
      abs_of_nonneg, Except.map]
  · norm_num [cg, cgLoop, cgStep, dot, vecSub, axpy, aypx, applyDiag12, rtolDemo,
      abs_of_nonneg]

/-- C2: the solver declares convergence exactly when the squared relative
residual satisfies `r_norm2 / r0_norm2 < rtol^2` — the comparison is carried
on squared quantities, no square root is taken — and on convergence the loop
terminates at once with the current state, whose `x` is the just-updated
iterate and whose iteration count is `k + 1`, the number of completed
iterations. -/
theorem c2_convergence_test_exact (action_A : Vec → Vec) (rtol : ℚ)
    (fuel : ℕ) (s s' : CGState) (brk : Bool) (hr0 : 0 < s.r0_norm2)
    (h : cgStep action_A (rtol ^ 2) s = .ok (brk, s')) :
    (brk = true ↔ s'.r_norm2 / s'.r0_norm2 < rtol ^ 2) ∧
    s'.k = s.k + 1 ∧
    (brk = true → cgLoop action_A (rtol ^ 2) (fuel + 1) s = .ok s') := by
  obtain ⟨-, hr0', hk, hinv, -, -, hiff⟩ :=
    cgStep_ok_facts action_A (rtol ^ 2) s brk s' h
  have hr0pos : 0 < s'.r0_norm2 := by rw [hr0']; exact hr0
  have hnn : 0 ≤ s'.r_norm2 := by rw [hinv]; exact dot_self_nonneg s'.r
  have habs : |s'.r_norm2 / s'.r0_norm2| = s'.r_norm2 / s'.r0_norm2 :=
    abs_of_nonneg (div_nonneg hnn hr0pos.le)
  refine ⟨by rw [hiff, habs], hk, fun hb => ?_⟩
  subst hb
  simp only [cgLoop]
  rw [h]

theorem c2_convergence_test_exact_witness :
    cgStep idApply (rtolDemo ^ 2) ⟨[1], [0], [1], [1], 1, 1, 0⟩ =
      .ok (true, ⟨[1], [1], [0], [1], 0, 1, 1⟩) ∧
    ((true = true) ↔
      (⟨[1], [1], [0], [1], 0, 1, 1⟩ : CGState).r_norm2 /
        (⟨[1], [1], [0], [1], 0, 1, 1⟩ : CGState).r0_norm2 < rtolDemo ^ 2) ∧
    (⟨[1], [1], [0], [1], 0, 1, 1⟩ : CGState).k = 0 + 1 ∧
    (true = true →
      cgLoop idApply (rtolDemo ^ 2) (0 + 1) ⟨[1], [0], [1], [1], 1, 1, 0⟩ =
        .ok ⟨[1], [1], [0], [1], 0, 1, 1⟩) := by
  have hstep : cgStep idApply (rtolDemo ^ 2) ⟨[1], [0], [1], [1], 1, 1, 0⟩ =
      .ok (true, ⟨[1], [1], [0], [1], 0, 1, 1⟩) := by
    norm_num [cgStep, dot, axpy, aypx, idApply, rtolDemo]
  exact ⟨hstep, c2_convergence_test_exact idApply rtolDemo 0 ⟨[1], [0], [1], [1], 1, 1, 0⟩
    ⟨[1], [1], [0], [1], 0, 1, 1⟩ true (by norm_num) hstep⟩

theorem cgStep_eq_specStep (action_A : Vec → Vec) (eps : ℚ) (s : CGState)
    (brk : Bool) (s' : CGState) (hr0 : 0 ≤ s.r0_norm2)
    (h : cgStep action_A eps s = .ok (brk, s')) :
    specStep action_A eps s = (brk, s') := by
  simp only [cgStep] at h
  split_ifs at h with h1 h2 h3 h4
  · simp only [Except.ok.injEq, Prod.mk.injEq] at h
    obtain ⟨hb, hs⟩ := h
    subst hs
    subst hb
    have hr0pos : 0 < s.r0_norm2 := lt_of_le_of_ne hr0 (Ne.symm h3)
    have hcond := h4
    rw [abs_of_nonneg (div_nonneg (dot_self_nonneg _) hr0pos.le)] at hcond
    simp only [specStep]
    rw [if_pos hcond]
  · simp only [Except.ok.injEq, Prod.mk.injEq] at h
    obtain ⟨hb, hs⟩ := h
    subst hs
    subst hb
    have hr0pos : 0 < s.r0_norm2 := lt_of_le_of_ne hr0 (Ne.symm h3)
    have hcond := h4
    rw [abs_of_nonneg (div_nonneg (dot_self_nonneg _) hr0pos.le)] at hcond
    simp only [specStep]
    rw [if_neg hcond]

theorem cgLoop_eq_specLoop (action_A : Vec → Vec) (eps : ℚ) :
    ∀ (fuel : ℕ) (st s' : CGState), 0 ≤ st.r0_norm2 →
      cgLoop action_A eps fuel st = .ok s' →
      specLoop action_A eps fuel st = s' := by
  intro fuel
  induction fuel with
  | zero =>
    intro st s' hr0 h
    simp only [cgLoop, Except.ok.injEq] at h
    subst h
    rfl
  | succ f ih =>
    intro st s' hr0 h
    simp only [cgLoop] at h
    rcases hstep : cgStep action_A eps st with e | ⟨brk, s₁⟩
    · rw [hstep] at h; simp at h
    · rw [hstep] at h
      have hspec := cgStep_eq_specStep action_A eps st brk s₁ hr0 hstep
      obtain ⟨-, hr0', -, -, -, -, -⟩ := cgStep_ok_facts action_A eps st brk s₁ hstep
      cases brk with
      | true =>
        simp only [Except.ok.injEq] at h
        subst h
        simp only [specLoop, hspec]
      | false =>
        have hrec := ih s₁ s' (by rw [hr0']; exact hr0) h
        simp only [specLoop, hspec]
        exact hrec

/-- C1: for every operator action, right-hand side `b` and initial guess
`x`, the `cg` function computes the initial residual `r = b - apply(x)`,
sets `p = r` and `r0_norm2 = dot(r, r)`, and on each iteration computes
`y = apply(p)`, `alpha = r_norm2 / dot(p, y)`, updates `x` and `r`, sets
`beta = r_norm2_new / r_norm2` with `r_norm2_new = dot(r, r)` and, when not
converged, updates `p <- beta*p + r`, in exactly this order: whenever the
source solver returns normally, its result coincides with the reference
recursion `specCG` transcribed verbatim from the claim's update sequence. -/
theorem c1_cg_follows_spec_order (action_A : Vec → Vec) (b x : Vec)
    (max_iter : ℕ) (rtol : ℚ) (s : CGState)
    (h : cg action_A b x max_iter rtol = .ok s) :
    specCG action_A b x max_iter rtol = s := by
  simp only [cg] at h
  simp only [specCG]
  exact cgLoop_eq_specLoop action_A (rtol ^ 2) max_iter _ s (dot_self_nonneg _) h

theorem c1_cg_follows_spec_order_witness :
    cg idApply [1] [0] 5 rtolDemo = .ok ⟨[1], [1], [0], [1], 0, 1, 1⟩ ∧
    specCG idApply [1] [0] 5 rtolDemo = ⟨[1], [1], [0], [1], 0, 1, 1⟩ := by
  have hrun : cg idApply [1] [0] 5 rtolDemo = .ok ⟨[1], [1], [0], [1], 0, 1, 1⟩ := by
    norm_num [cg, cgLoop, cgStep, dot, vecSub, axpy, aypx, idApply, rtolDemo]
  exact ⟨hrun, c1_cg_follows_spec_order idApply [1] [0] 5 rtolDemo
    ⟨[1], [1], [0], [1], 0, 1, 1⟩ hrun⟩

theorem solveStep_agree (action_A : Vec → Vec) (eps : ℚ) (s : CGState)
    (brk : Bool) (s' : CGState) (h : cgStep action_A eps s = .ok (brk, s')) :
    (brk = false → CG.solveStep action_A { s with k := s.k + 1 } = .ok s') ∧
    (brk = true → CG.solveStep action_A { s with k := s.k + 1 } =
      .ok { s' with p := aypx s.p (s'.r_norm2 / s.r_norm2) s'.r }) := by
  simp only [cgStep] at h
  split_ifs at h with h1 h2 h3 h4
  · simp only [Except.ok.injEq, Prod.mk.injEq] at h
    obtain ⟨hb, hs⟩ := h
    subst hs
    subst hb
    constructor
    · intro hf
      cases hf
    · intro _
      simp only [CG.solveStep, if_neg h1, if_neg h2]
  · simp only [Except.ok.injEq, Prod.mk.injEq] at h
    obtain ⟨hb, hs⟩ := h
    subst hs
    subst hb
    constructor
    · intro _
      simp only [CG.solveStep, if_neg h1, if_neg h2]
    · intro ht
      cases ht

theorem libCGLoop_eq_solveLoop (action_A : Vec → Vec) (rtol : ℚ) (max_iter : ℕ) :
    ∀ (fuel : ℕ) (s : CGState),
      libCGLoop action_A rtol max_iter fuel s =
        CG.solveLoop action_A rtol max_iter fuel s := by
  intro fuel
  induction fuel with
  | zero => intro s; rfl
  | succ f ih =>
    intro s
    simp only [libCGLoop, CG.solveLoop]
    rcases hconv : converged rtol max_iter s.r0_norm2 s.k (dot s.r s.r) with e | reason
    · simp only [hconv]
    · cases reason with
      | iterating =>
        simp only [hconv]
        rcases hstep : CG.solveStep action_A { s with k := s.k + 1 } with e | s₁
        · simp only [hstep]
        · simp only [hstep]
          exact ih s₁
      | convergedRtol => simp only [hconv]
      | divergedMaxIt => simp only [hconv]

theorem cg_solveLoop_agree (action_A : Vec → Vec) (rtol : ℚ) (max_iter : ℕ) :
    ∀ (fc fk : ℕ) (s s' : CGState),
      fc + 1 ≤ fk →
      s.k + fc = max_iter →
      0 < s.r0_norm2 →
      s.r_norm2 = dot s.r s.r →
      ¬ dot s.r s.r < rtol ^ 2 * s.r0_norm2 →
      cgLoop action_A (rtol ^ 2) fc s = .ok s' →
      s'.r_norm2 < rtol ^ 2 * s'.r0_norm2 →
      ∃ t, CG.solveLoop action_A rtol max_iter fk s = .ok (.convergedRtol, t) ∧
        t.x = s'.x ∧ t.k = s'.k := by
  intro fc
  induction fc with
  | zero =>
    intro fk s s' hfk hk hr0 hinv hnot h hconv
    simp only [cgLoop, Except.ok.injEq] at h
    subst h
    rw [hinv] at hconv
    exact absurd hconv hnot
  | succ n ih =>
    intro fk s s' hfk hk hr0 hinv hnot h hconv
    simp only [cgLoop] at h
    rcases hstep : cgStep action_A (rtol ^ 2) s with e | ⟨brk, s₁⟩
    · rw [hstep] at h; simp at h
    · rw [hstep] at h
      obtain ⟨hb1, hr01, hk1, hinv1, hr0ne, hrnne, hiff⟩ :=
        cgStep_ok_facts action_A (rtol ^ 2) s brk s₁ hstep
      obtain ⟨hfalse, htrue⟩ := solveStep_agree action_A (rtol ^ 2) s brk s₁ hstep
      obtain ⟨m, rfl⟩ : ∃ m, fk = m + 1 := ⟨fk - 1, by omega⟩
      have hknotgt : ¬ s.k > max_iter := by omega
      have hcv : converged rtol max_iter s.r0_norm2 s.k (dot s.r s.r) =
          .ok .iterating := by
        simp only [converged, if_neg hknotgt, if_neg hr0.ne', if_neg hnot]
      cases brk with
      | true =>
        simp only [Except.ok.injEq] at h
        subst h
        have hstep2 := htrue rfl
        obtain ⟨m', rfl⟩ : ∃ m', m = m' + 1 := ⟨m - 1, by omega⟩
        refine ⟨{ s₁ with p := aypx s.p (s₁.r_norm2 / s.r_norm2) s₁.r }, ?_, rfl, rfl⟩
        have hcv2 : converged rtol max_iter s₁.r0_norm2 s₁.k (dot s₁.r s₁.r) =
            .ok .convergedRtol := by
          have h1 : ¬ s₁.k > max_iter := by omega
          have h2 : ¬ s₁.r0_norm2 = 0 := by rw [hr01]; exact hr0.ne'
          have h3 : dot s₁.r s₁.r < rtol ^ 2 * s₁.r0_norm2 := by
            rw [← hinv1]; exact hconv
          simp only [converged, if_neg h1, if_neg h2, if_pos h3]
        simp only [CG.solveLoop, hcv, hstep2, hcv2]
      | false =>
        have hstep2 := hfalse rfl
        have hnot1 : ¬ dot s₁.r s₁.r < rtol ^ 2 * s₁.r0_norm2 := by
          intro hlt
          have hnn : 0 ≤ s₁.r_norm2 := by
            rw [hinv1]; exact dot_self_nonneg s₁.r
          have hpos : 0 < s₁.r0_norm2 := by rw [hr01]; exact hr0
          have habs : |s₁.r_norm2 / s₁.r0_norm2| < rtol ^ 2 := by
            rw [abs_div_lt_iff_lt_mul _ _ _ hnn hpos, hinv1]
            exact hlt
          exact absurd (hiff.mpr habs) (by simp)
        obtain ⟨t, hloop, hx, hk'⟩ := ih m s₁ s' (by omega) (by omega)
          (by rw [hr01]; exact hr0) hinv1 hnot1 h hconv
        refine ⟨t, ?_, hx, hk'⟩
        simp only [CG.solveLoop, hcv, hstep2]
        exact hloop

/-- C4 (amended): given identical `action_A`, `b`, initial guess, `rtol`
(positive and at most one) and `max_iter`, whenever the bare-loop `cg`
converges — its final state passes the convergence test — the custom KSP
plugin `CG.solve` and the spec-modelled library-driven variant `libCG`
terminate with `CONVERGED_RTOL` and produce exactly the same iteration count
and the same coefficient vector (exact equality in this model, subsuming the
claim's round-off allowance).  Without the convergence hypothesis the
variants genuinely differ: on cap exhaustion `CG.solve` runs one extra
iteration and reports `max_iter + 1`; see the counterexample. -/
theorem c4_variants_agree_when_converged (action_A : Vec → Vec) (b x : Vec)
    (max_iter : ℕ) (rtol : ℚ) (s : CGState) (hrt : 0 < rtol) (hrt1 : rtol ≤ 1)
    (hr0 : 0 < dot (vecSub b (action_A x)) (vecSub b (action_A x)))
    (hcg : cg action_A b x max_iter rtol = .ok s)
    (hconv : s.r_norm2 < rtol ^ 2 * s.r0_norm2) :
    ∃ t, CG.solve action_A b x max_iter rtol = .ok (.convergedRtol, t) ∧
      libCG action_A b x max_iter rtol = .ok (.convergedRtol, t) ∧
      t.x = s.x ∧ t.k = s.k := by
  simp only [cg] at hcg
  have hnot0 : ¬ dot (vecSub b (action_A x)) (vecSub b (action_A x)) <
      rtol ^ 2 * dot (vecSub b (action_A x)) (vecSub b (action_A x)) := by
    have hsq : rtol ^ 2 ≤ 1 := by
      calc rtol ^ 2 ≤ 1 ^ 2 := pow_le_pow_left₀ hrt.le hrt1 2
        _ = 1 := one_pow 2
    have hle : rtol ^ 2 * dot (vecSub b (action_A x)) (vecSub b (action_A x)) ≤
        dot (vecSub b (action_A x)) (vecSub b (action_A x)) := by
      calc rtol ^ 2 * dot (vecSub b (action_A x)) (vecSub b (action_A x)) ≤
          1 * dot (vecSub b (action_A x)) (vecSub b (action_A x)) :=
            mul_le_mul_of_nonneg_right hsq (dot_self_nonneg _)
        _ = dot (vecSub b (action_A x)) (vecSub b (action_A x)) := one_mul _
    linarith
  obtain ⟨t, hksp, hx, hk⟩ :=
    cg_solveLoop_agree action_A rtol max_iter max_iter (max_iter + 2)
      ⟨b, x, vecSub b (action_A x), vecSub b (action_A x),
        dot (vecSub b (action_A x)) (vecSub b (action_A x)),
        dot (vecSub b (action_A x)) (vecSub b (action_A x)), 0⟩ s
      (by omega) (by simp) hr0 rfl hnot0 hcg hconv
  refine ⟨t, ?_, ?_, hx, hk⟩
  · simp only [CG.solve]
    exact hksp
  · simp only [libCG, libCGLoop_eq_solveLoop]
    exact hksp

theorem c4_variants_agree_when_converged_witness :
    ∃ t, CG.solve idApply [1] [0] 5 (1 / 2) = .ok (.convergedRtol, t) ∧
      libCG idApply [1] [0] 5 (1 / 2) = .ok (.convergedRtol, t) ∧
      t.x = [1] ∧ t.k = 1 := by
  have hrun : cg idApply [1] [0] 5 (1 / 2) = .ok ⟨[1], [1], [0], [1], 0, 1, 1⟩ := by
    norm_num [cg, cgLoop, cgStep, dot, vecSub, axpy, aypx, idApply]
  exact c4_variants_agree_when_converged idApply [1] [0] 5 (1 / 2)
    ⟨[1], [1], [0], [1], 0, 1, 1⟩ (by norm_num) (by norm_num)
    (by norm_num [dot, vecSub, idApply]) hrun (by norm_num)

/-- C4 (counterexample): the claim as stated — identical iteration counts
and coefficient vectors for identical inputs — is false when the run does
not converge within the cap.  On `diag(1, 2)` with `b = (1, 1)`, zero
initial guess, `rtol = 1e-6` and `max_iter = 1`, the bare-loop `cg` returns
count `1` with `x = (2/3, 2/3)`, while `CG.solve` (and the library-driven
variant) performs a second iteration and reports count `2` with
`x = (1, 1/2)` — different counts and vectors, not round-off. -/
theorem c4_counterexample :
    (cg applyDiag12 [1, 1] [0, 0] 1 rtolDemo).map (fun s => (s.k, s.x)) =
      .ok (1, [2/3, 2/3]) ∧
    (CG.solve applyDiag12 [1, 1] [0, 0] 1 rtolDemo).map
        (fun rs => (rs.2.k, rs.2.x)) = .ok (2, [1, 1/2]) ∧
    (libCG applyDiag12 [1, 1] [0, 0] 1 rtolDemo).map
        (fun rs => (rs.2.k, rs.2.x)) = .ok (2, [1, 1/2]) := by
  refine ⟨?_, ?_, ?_⟩
  · norm_num [cg, cgLoop, cgStep, dot, vecSub, axpy, aypx, applyDiag12, rtolDemo,
      abs_of_nonneg, Except.map]
  · norm_num [CG.solve, CG.solveLoop, CG.solveStep, converged, dot, vecSub, axpy,
      aypx, applyDiag12, rtolDemo, abs_of_nonneg, Except.map]
  · norm_num [libCG, libCGLoop, CG.solveStep, converged, dot, vecSub, axpy,
      aypx, applyDiag12, rtolDemo, abs_of_nonneg, Except.map]
